import Mathlib

/-!
Shallow embedding of the qrFile package (qrFile/qrFile.go).

Go strings are modelled as `List Char`, byte slices as `List Nat` (each
entry intended to be a byte value below 256), and `uint64` header fields
as `Nat` (the values that arise here stay far below 2^64, and every place
where the 16-bit parse bound of strconv.ParseUint matters is modelled
explicitly).  Fallible Go functions returning `(value, error)` become
`Except String value`; the output side of logging statements is I/O and is
dropped, but their arguments are evaluated as in Go: the log calls of
WritePNGs (line 233) and StoreData (line 327) slice `v.Payload[0:10]`,
which panics at runtime whenever the payload is shorter than 10
characters, so the functions containing them are modelled with an `Option`
result whose `none` is that panic (the function never returns).
Error message text follows the `errors.New` literals of the source where
the source supplies them; for Go standard library errors (strconv,
encoding/hex) a fixed representative message is used, since only the
identity of the failing operation matters to the properties proved here.
-/

deriving instance DecidableEq for Except

set_option maxRecDepth 2000

namespace QrFileModel

/-- Constant `qrSize` from qrFile.go: characters in each single image. -/
def qrSize : Nat := 1608

/-- Constant `qrHeaderSize` from qrFile.go: header space, 3 uint64 as string. -/
def qrHeaderSize : Nat := 60

/-- Constant `qrDataSize` from qrFile.go: qrSize - qrHeaderSize. -/
def qrDataSize : Nat := qrSize - qrHeaderSize

/-- Constant `uintStringLength` from qrFile.go. -/
def uintStringLength : Nat := 20

/-- Constant `indexPos` from qrFile.go. -/
def indexPos : Nat := 0

/-- Constant `maxIndexPos` from qrFile.go. -/
def maxIndexPos : Nat := 20

/-- Constant `payloadLengthPos` from qrFile.go. -/
def payloadLengthPos : Nat := 40

/-- Constant `payloadPos` from qrFile.go. -/
def payloadPos : Nat := 60

/-- Struct `QrElement` from qrFile.go: the data stored inside a single QR image. -/
structure QrElement where
  Index : Nat
  MaxIndex : Nat
  PayloadLength : Nat
  Payload : List Char
deriving DecidableEq

instance : Inhabited QrElement := ⟨⟨0, 0, 0, []⟩⟩

/-- Struct `QrElements` from qrFile.go: a collection of QrElement entries. -/
structure QrElements where
  Elements : List QrElement
deriving DecidableEq

/-- Struct `QrFile` from qrFile.go: filename plus raw byte content. -/
structure QrFile where
  Fname : List Char
  Data : List Nat
deriving DecidableEq

/-- Decimal digit character for a value below 10 (ASCII 48 is the zero digit). -/
def digitChar (n : Nat) : Char := Char.ofNat (48 + n)

/-- Most-significant-first decimal digits of a positive number, pushed onto an
accumulator; this is the core of the `%20d` integer formatting of fmt.Sprintf.
The first argument is fuel making the recursion structural; any fuel of at
least the formatted number gives the exact digits. -/
def natToDigitsAux : Nat → Nat → List Char → List Char
  | 0, _, acc => acc
  | _ + 1, 0, acc => acc
  | fuel + 1, n + 1, acc =>
    natToDigitsAux fuel ((n + 1) / 10) (digitChar ((n + 1) % 10) :: acc)

/-- Decimal representation of a Nat, as produced by the `%d` verb of fmt.Sprintf. -/
def natRepr (n : Nat) : List Char :=
  if n = 0 then [digitChar 0] else natToDigitsAux n n []

/-- Left padding with spaces up to a given width, as done by a width-annotated
`%d` or `%s` verb of fmt.Sprintf (content longer than the width is kept whole). -/
def padLeft (w : Nat) (s : List Char) : List Char :=
  List.replicate (w - s.length) ' ' ++ s

/-- Method `AsString` of QrElement (qrFile.go line 195): formats the element
with the format string outputFormat = three width-20 integer fields followed
by the payload. -/
def AsString (e : QrElement) : List Char :=
  padLeft uintStringLength (natRepr e.Index) ++
  padLeft uintStringLength (natRepr e.MaxIndex) ++
  padLeft uintStringLength (natRepr e.PayloadLength) ++
  e.Payload

/-- Function `GetElement` from qrFile.go line 109: creates a single QrElement,
rejecting payloads above qrDataSize and padding the stored payload with the
format string payloadFormat to width 1548 = qrDataSize. -/
def GetElement (idx : Nat) (maxidx : Nat) (payload : List Char) : Except String QrElement :=
  if payload.length > qrDataSize then .error "Payload size exceeds maximum data size"
  else .ok ⟨idx, maxidx, payload.length, padLeft qrDataSize payload⟩

/-- Element count computed at the top of `GetElements` (qrFile.go lines 88-91):
integer division by qrDataSize, plus one when there is a remainder. -/
def chunkCount (L : Nat) : Nat :=
  L / qrDataSize + (if L % qrDataSize ≠ 0 then 1 else 0)

/-- Body of the loop of `GetElements` (qrFile.go lines 94-104) for loop index i:
the final slice keeps the remainder of the payload, every other slice takes
exactly qrDataSize characters. -/
def buildElement (payload : List Char) (maxCount : Nat) (i : Nat) : Except String QrElement :=
  if (i + 1) * qrDataSize > payload.length then
    GetElement i (maxCount - 1) (payload.drop (i * qrDataSize))
  else
    GetElement i (maxCount - 1) ((payload.drop (i * qrDataSize)).take qrDataSize)

/-- Function `GetElements` from qrFile.go line 87: partitions a payload string
into chunkCount elements, stopping at the first element creation error. -/
def GetElements (payload : List Char) : Except String QrElements :=
  match (List.range (chunkCount payload.length)).mapM
      (buildElement payload (chunkCount payload.length)) with
  | .error e => .error e
  | .ok l => .ok ⟨l⟩

/-- Behaviour of strings.Trim(s, " "): removes leading and trailing spaces. -/
def trimSpaces (s : List Char) : List Char :=
  ((s.dropWhile (fun c => c == ' ')).reverse.dropWhile (fun c => c == ' ')).reverse

/-- Numeric value of a decimal digit character. -/
def digitVal (c : Char) : Nat := c.toNat - 48

/-- Accumulating decimal evaluation of a digit string. -/
def digitsToNatAux : Nat → List Char → Nat
  | a, [] => a
  | a, c :: cs => digitsToNatAux (10 * a + digitVal c) cs

/-- Value of a decimal digit string, most significant digit first. -/
def digitsToNat (s : List Char) : Nat := digitsToNatAux 0 s

/-- Behaviour of strconv.ParseUint(s, 10, 16) as called in ParseString
(qrFile.go lines 204-212): rejects the empty string and any non-digit
character, and rejects values that do not fit in 16 bits. -/
def parseUint16 (s : List Char) : Except String Nat :=
  if s.isEmpty then .error "strconv.ParseUint: parsing: invalid syntax"
  else if s.all Char.isDigit then
    if digitsToNat s < 65536 then .ok (digitsToNat s)
    else .error "strconv.ParseUint: parsing: value out of range"
  else .error "strconv.ParseUint: parsing: invalid syntax"

/-- Method `ParseString` of QrElement (qrFile.go line 200): checks the fixed
total width, parses the three space-trimmed width-20 header fields with
strconv.ParseUint(_, 10, 16), and stores the space-trimmed payload. -/
def ParseString (str : List Char) : Except String QrElement :=
  if str.length ≠ qrSize then .error "Size mismatch."
  else
    parseUint16 (trimSpaces ((str.drop indexPos).take uintStringLength)) >>= fun idx =>
    parseUint16 (trimSpaces ((str.drop maxIndexPos).take uintStringLength)) >>= fun mdx =>
    parseUint16 (trimSpaces ((str.drop payloadLengthPos).take uintStringLength)) >>= fun pl =>
    .ok ⟨idx, mdx, pl, trimSpaces (str.drop payloadPos)⟩

/-- Lowercase hex digit character for a value below 16, as produced by
hex.EncodeToString (ASCII 48 is the zero digit, 97 is the letter a). -/
def hexDigitChar (n : Nat) : Char :=
  if n < 10 then Char.ofNat (48 + n) else Char.ofNat (87 + n)

/-- Behaviour of hex.EncodeToString from encoding/hex as used by ToHexString
(qrFile.go line 141): two lowercase hex characters per byte. -/
def hexEncode : List Nat → List Char
  | [] => []
  | b :: rest => hexDigitChar (b / 16) :: hexDigitChar (b % 16) :: hexEncode rest

/-- Behaviour of the fromHexChar helper of encoding/hex: accepts the three
ASCII ranges of decimal digits, lowercase and uppercase hex letters. -/
def fromHexChar (c : Char) : Option Nat :=
  if 48 ≤ c.toNat ∧ c.toNat ≤ 57 then some (c.toNat - 48)
  else if 97 ≤ c.toNat ∧ c.toNat ≤ 102 then some (c.toNat - 87)
  else if 65 ≤ c.toNat ∧ c.toNat ≤ 70 then some (c.toNat - 55)
  else none

/-- Behaviour of hex.DecodeString from encoding/hex as called in StoreData
(qrFile.go line 328): decodes complete pairs left to right, reporting the
first invalid byte; a leftover lone character is an odd length error (the
lone character itself is never inspected, as in the Go implementation). -/
def hexDecode : List Char → Except String (List Nat)
  | [] => .ok []
  | [_] => .error "encoding/hex: odd length hex string"
  | a :: b :: rest =>
    match fromHexChar a with
    | none => .error ("encoding/hex: invalid byte: " ++ String.mk [a])
    | some x =>
      match fromHexChar b with
      | none => .error ("encoding/hex: invalid byte: " ++ String.mk [b])
      | some y =>
        match hexDecode rest with
        | .error e => .error e
        | .ok tail => .ok ((16 * x + y) :: tail)

/-- Constructor `New` from qrFile.go line 125: a QrFile with empty data. -/
def New : QrFile := ⟨[], []⟩

/-- Loop of `StoreData` (qrFile.go lines 326-333).  Each iteration first
evaluates the log argument `v.Payload[0:10]` (line 327), which panics in Go
whenever the payload is shorter than 10 characters: that panic is the `none`
outcome and the loop never returns.  Otherwise the Data slice grows by the
hex decoding of the Payload in element order, and the first decode failure
stops the loop, keeping the bytes appended so far. -/
def storeDataLoop : List QrElement → List Nat → Option (List Nat × Option String)
  | [], data => some (data, none)
  | v :: rest, data =>
    if v.Payload.length < 10 then none
    else
      match hexDecode v.Payload with
      | .error e => some (data, some e)
      | .ok buffer => storeDataLoop rest (data ++ buffer)

/-- Method `StoreData` of QrElements (qrFile.go line 325): appends the hex
decoding of every Payload to the Data of the given QrFile, returning the
updated file state together with the error of the first failed decode; the
`none` outcome is the runtime panic of the log slice on a payload shorter
than 10 characters, where the method never returns. -/
def StoreData (elems : QrElements) (fileObject : QrFile) :
    Option (QrFile × Option String) :=
  match storeDataLoop elems.Elements fileObject.Data with
  | none => none
  | some (d, e) => some (⟨fileObject.Fname, d⟩, e)

/-- Comparison `Less` of the sort.Interface implementation (qrFile.go line 341),
as a relation between elements: strictly smaller Index. -/
def lessByIndex (a b : QrElement) : Prop := a.Index < b.Index

instance : DecidableRel lessByIndex := fun a b => Nat.decLt a.Index b.Index

/-- Non-strict index order used to model the postcondition of sort.Sort:
the sorted sequence is non-decreasing in Index. -/
def leByIndex (a b : QrElement) : Prop := a.Index ≤ b.Index

instance : DecidableRel leByIndex := fun a b => Nat.decLe a.Index b.Index

/-- Duplicate scan of FromPNGs (qrFile.go lines 316-320): true when some
adjacent pair of the (sorted) list fails the strict Less comparison. -/
def hasAdjacentDup : List QrElement → Bool
  | [] => false
  | [_] => false
  | a :: b :: rest => if a.Index < b.Index then hasAdjacentDup (b :: rest) else true

/-- Validation tail of `FromPNGs` (qrFile.go lines 307-321), applied to the
collected element list: empty check, the size test against the MaxIndex of
the first collected element, sort.Sort by Index, and the adjacent duplicate
scan.  sort.Sort is unstable but always yields a permutation that is
non-decreasing in Index; it is modelled here by insertion sort on leByIndex,
which agrees with every such permutation on each verdict proved below and
agrees with it exactly whenever all indices are distinct. -/
def validateElements : List QrElement → Except String (List QrElement)
  | [] => .error "No elements extraced."
  | e :: rest =>
    if (e :: rest).length < e.MaxIndex then .error "Incomplete set extracted."
    else
      if hasAdjacentDup (List.insertionSort leByIndex (e :: rest)) then
        .error "Duplicate element detected."
      else .ok (List.insertionSort leByIndex (e :: rest))

/-- File name formed by each task of `WritePNGs` (qrFile.go line 241):
fmt.Sprintf with format %s%s%d.png applied to the work path, the file name
marker and the zero-based slice position of the element. -/
def pngFileName (workPath : List Char) (prefixStr : List Char) (i : Nat) : List Char :=
  workPath ++ prefixStr ++ natRepr i ++ ('.' :: 'p' :: 'n' :: 'g' :: [])

/-- File names written by `WritePNGs` (qrFile.go lines 230-252), in slice
order: one name per element, indexed by the loop position, not by the stored
Index field.  Before anything else, each task evaluates the log argument
`v.Payload[0:10]` (line 233), which panics for a payload shorter than 10
characters; an unrecovered panic in any task crashes the program, so the
names are only formed when every element passes that slice (`none`
otherwise).  The image rendering and file output are I/O and stay outside
the embedding; the name computation is the part the claims concern. -/
def writePNGsNames (elems : QrElements) (workPath : List Char) (prefixStr : List Char) :
    Option (List (List Char)) :=
  if ∀ v ∈ elems.Elements, 10 ≤ v.Payload.length then
    some ((List.range elems.Elements.length).map (fun i => pngFileName workPath prefixStr i))
  else none

/-- Whole decode-free round trip of the package, composed exactly as the spec
describes it: hex encoding (ToHexString), GetElements, AsString on every
element, ParseString on every produced record, the validation tail of
FromPNGs, and StoreData into a fresh QrFile.  The outer `none` is the
runtime panic of StoreData on an element whose trimmed payload is shorter
than 10 characters; `some` carries the returned value or error. -/
def roundTrip (b : List Nat) : Option (Except String (List Nat)) :=
  match (GetElements (hexEncode b) >>= fun elems =>
      (elems.Elements.map AsString).mapM ParseString >>= fun parsed =>
      validateElements parsed) with
  | .error e => some (.error e)
  | .ok validated =>
    match StoreData ⟨validated⟩ New with
    | none => none
    | some (_, some e) => some (.error e)
    | some (f, none) => some (.ok f.Data)

/-- Slice of the payload taken by the loop of GetElements for loop index i;
both branches of buildElement produce exactly this value, as proved below. -/
def slice (p : List Char) (i : Nat) : List Char :=
  (p.drop (i * qrDataSize)).take qrDataSize

/-- Property following the words of the spec for one header field, with the
16-bit bound of the implementation made explicit: the space-trimmed field is
a nonempty string of decimal digits whose value fits the ParseUint bit size. -/
def decimalFieldOk (t : List Char) : Prop :=
  trimSpaces t ≠ [] ∧ (∀ c ∈ trimSpaces t, c.isDigit = true) ∧
  digitsToNat (trimSpaces t) < 65536

/-- Record text of the correct total width whose index field holds 70000: a
well-formed decimal number inside the 20 character field, but above the
16-bit parse bound of strconv.ParseUint(_, 10, 16). -/
def c8Str : List Char :=
  padLeft uintStringLength (natRepr 70000) ++ padLeft uintStringLength (natRepr 1) ++
  padLeft uintStringLength (natRepr 0) ++ List.replicate 1548 'a'

section EquationLemmas

/-- Defining equation of digitsToNatAux on the empty list. -/
theorem digitsToNatAux_nil (a : Nat) : digitsToNatAux a [] = a := rfl

/-- Defining equation of digitsToNatAux on a cons cell. -/
theorem digitsToNatAux_cons (a : Nat) (c : Char) (cs : List Char) :
    digitsToNatAux a (c :: cs) = digitsToNatAux (10 * a + digitVal c) cs := rfl

/-- Defining equation of hexEncode on the empty list. -/
theorem hexEncode_nil : hexEncode [] = [] := rfl

/-- Defining equation of hexEncode on a cons cell. -/
theorem hexEncode_cons (b : Nat) (rest : List Nat) :
    hexEncode (b :: rest) = hexDigitChar (b / 16) :: hexDigitChar (b % 16) :: hexEncode rest := rfl

/-- Defining equation of hexDecode on the empty list. -/
theorem hexDecode_nil : hexDecode [] = .ok [] := rfl

/-- Defining equation of hexDecode on a lone character. -/
theorem hexDecode_single (a : Char) : hexDecode [a] = .error "encoding/hex: odd length hex string" := rfl

/-- Defining equation of hexDecode on a pair of characters. -/
theorem hexDecode_cons2 (a b : Char) (rest : List Char) :
    hexDecode (a :: b :: rest) =
      match fromHexChar a with
      | none => .error ("encoding/hex: invalid byte: " ++ String.mk [a])
      | some x =>
        match fromHexChar b with
        | none => .error ("encoding/hex: invalid byte: " ++ String.mk [b])
        | some y =>
          match hexDecode rest with
          | .error e => .error e
          | .ok tail => .ok ((16 * x + y) :: tail) := rfl

/-- Defining equation of storeDataLoop on the empty list. -/
theorem storeDataLoop_nil (data : List Nat) :
    storeDataLoop [] data = some (data, none) := rfl

/-- Defining equation of storeDataLoop on a cons cell. -/
theorem storeDataLoop_cons (v : QrElement) (rest : List QrElement) (data : List Nat) :
    storeDataLoop (v :: rest) data =
      if v.Payload.length < 10 then none
      else
        match hexDecode v.Payload with
        | .error e => some (data, some e)
        | .ok buffer => storeDataLoop rest (data ++ buffer) := rfl

/-- Defining equation of hasAdjacentDup on a list with at least two entries. -/
theorem hasAdjacentDup_cons2 (a b : QrElement) (rest : List QrElement) :
    hasAdjacentDup (a :: b :: rest) =
      if a.Index < b.Index then hasAdjacentDup (b :: rest) else true := rfl

end EquationLemmas

section NumeralLemmas

/-- Digit characters have digit values back. -/
theorem digitVal_digitChar (r : Nat) (h : r < 10) : digitVal (digitChar r) = r := by
  interval_cases r <;> decide

/-- Digit characters satisfy Char.isDigit. -/
theorem isDigit_digitChar (r : Nat) (h : r < 10) : (digitChar r).isDigit = true := by
  interval_cases r <;> decide

/-- Defining equation of natToDigitsAux when the number is exhausted. -/
theorem natToDigitsAux_zero (fuel : Nat) (acc : List Char) :
    natToDigitsAux fuel 0 acc = acc := by
  cases fuel <;> rfl

/-- Defining equation of natToDigitsAux on a positive number with fuel. -/
theorem natToDigitsAux_succ (fuel m : Nat) (acc : List Char) :
    natToDigitsAux (fuel + 1) (m + 1) acc =
      natToDigitsAux fuel ((m + 1) / 10) (digitChar ((m + 1) % 10) :: acc) := rfl

/-- Length bound for the digit accumulator: a number below 10 ^ k contributes
at most k characters, whatever the fuel. -/
theorem natToDigitsAux_length_le :
    ∀ (fuel k n : Nat) (acc : List Char), n < 10 ^ k →
      (natToDigitsAux fuel n acc).length ≤ k + acc.length := by
  intro fuel
  induction fuel with
  | zero =>
    intro k n acc h
    cases n <;> simp [natToDigitsAux]
  | succ fuel ih =>
    intro k n acc h
    match n with
    | 0 => rw [natToDigitsAux_zero]; omega
    | m + 1 =>
      rw [natToDigitsAux_succ]
      cases k with
      | zero => omega
      | succ k =>
        have hq : (m + 1) / 10 < 10 ^ k := by
          rw [Nat.div_lt_iff_lt_mul (by norm_num)]
          calc m + 1 < 10 ^ (k + 1) := h
            _ = 10 ^ k * 10 := by ring
        have := ih k ((m + 1) / 10) (digitChar ((m + 1) % 10) :: acc) hq
        simp only [List.length_cons] at this
        omega

/-- The accumulator is never shortened. -/
theorem natToDigitsAux_length_ge :
    ∀ (fuel n : Nat) (acc : List Char),
      acc.length ≤ (natToDigitsAux fuel n acc).length := by
  intro fuel
  induction fuel with
  | zero =>
    intro n acc
    cases n <;> simp [natToDigitsAux]
  | succ fuel ih =>
    intro n acc
    match n with
    | 0 => rw [natToDigitsAux_zero]
    | m + 1 =>
      rw [natToDigitsAux_succ]
      have := ih ((m + 1) / 10) (digitChar ((m + 1) % 10) :: acc)
      simp only [List.length_cons] at this
      omega

/-- Every character the accumulator gains is a digit. -/
theorem natToDigitsAux_digits :
    ∀ (fuel n : Nat) (acc : List Char),
      (∀ c ∈ acc, c.isDigit = true) → ∀ c ∈ natToDigitsAux fuel n acc, c.isDigit = true := by
  intro fuel
  induction fuel with
  | zero =>
    intro n acc hacc
    cases n <;> simpa [natToDigitsAux] using hacc
  | succ fuel ih =>
    intro n acc hacc
    match n with
    | 0 => rw [natToDigitsAux_zero]; exact hacc
    | m + 1 =>
      rw [natToDigitsAux_succ]
      refine ih ((m + 1) / 10) (digitChar ((m + 1) % 10) :: acc) ?_
      intro c hc
      rcases List.mem_cons.mp hc with hc | hc
      · exact hc ▸ isDigit_digitChar _ (Nat.mod_lt _ (by norm_num))
      · exact hacc c hc

/-- Evaluating the digit accumulator with a nonzero seed. -/
theorem digitsToNatAux_shift :
    ∀ (l : List Char) (a : Nat),
      digitsToNatAux a l = a * 10 ^ l.length + digitsToNatAux 0 l := by
  intro l
  induction l with
  | nil => intro a; simp [digitsToNatAux_nil]
  | cons c cs ih =>
    intro a
    simp only [digitsToNatAux_cons, List.length_cons]
    rw [ih (10 * a + digitVal c), ih (10 * 0 + digitVal c)]
    ring

/-- Value of the formatted digits: formatting then evaluating is the identity,
up to the contribution of the accumulator, once the fuel covers the number. -/
theorem natToDigitsAux_value :
    ∀ (fuel n : Nat) (acc : List Char), n ≤ fuel →
      digitsToNat (natToDigitsAux fuel n acc) = n * 10 ^ acc.length + digitsToNat acc := by
  intro fuel
  induction fuel with
  | zero =>
    intro n acc h
    interval_cases n
    simp [natToDigitsAux]
  | succ fuel ih =>
    intro n acc h
    match n with
    | 0 => rw [natToDigitsAux_zero]; simp
    | m + 1 =>
      rw [natToDigitsAux_succ]
      have hq : (m + 1) / 10 ≤ fuel := by
        have := Nat.div_lt_self (Nat.succ_pos m) (by norm_num : 1 < 10)
        omega
      rw [ih ((m + 1) / 10) (digitChar ((m + 1) % 10) :: acc) hq]
      have hcons : digitsToNat (digitChar ((m + 1) % 10) :: acc) =
          ((m + 1) % 10) * 10 ^ acc.length + digitsToNat acc := by
        show digitsToNatAux 0 (digitChar ((m + 1) % 10) :: acc) = _
        rw [digitsToNatAux_cons]
        rw [digitsToNatAux_shift acc (10 * 0 + digitVal (digitChar ((m + 1) % 10)))]
        rw [digitVal_digitChar _ (Nat.mod_lt _ (by norm_num))]
        simp [digitsToNat]
      rw [hcons]
      have hdm : 10 * ((m + 1) / 10) + (m + 1) % 10 = m + 1 := Nat.div_add_mod (m + 1) 10
      simp only [List.length_cons]
      calc (m + 1) / 10 * 10 ^ (acc.length + 1) +
            ((m + 1) % 10 * 10 ^ acc.length + digitsToNat acc)
          = (10 * ((m + 1) / 10) + (m + 1) % 10) * 10 ^ acc.length + digitsToNat acc := by
            rw [pow_succ]; ring
        _ = (m + 1) * 10 ^ acc.length + digitsToNat acc := by rw [hdm]

/-- Decimal formatting never yields the empty string. -/
theorem natRepr_ne_nil (n : Nat) : natRepr n ≠ [] := by
  unfold natRepr
  split
  · simp
  · next h =>
    match n, h with
    | m + 1, _ =>
      rw [natToDigitsAux_succ]
      intro hcontra
      have := natToDigitsAux_length_ge m ((m + 1) / 10) (digitChar ((m + 1) % 10) :: [])
      rw [hcontra] at this
      simp at this

/-- Decimal formatting produces digit characters only. -/
theorem natRepr_all_digits (n : Nat) : ∀ c ∈ natRepr n, c.isDigit = true := by
  unfold natRepr
  split
  · intro c hc
    simp only [List.mem_singleton] at hc
    exact hc ▸ isDigit_digitChar 0 (by norm_num)
  · exact natToDigitsAux_digits n n [] (by simp)

/-- Decimal formatting followed by decimal evaluation is the identity. -/
theorem digitsToNat_natRepr (n : Nat) : digitsToNat (natRepr n) = n := by
  unfold natRepr
  split
  · next h => subst h; decide
  · rw [natToDigitsAux_value n n [] (Nat.le_refl n)]
    show n * 10 ^ ([] : List Char).length + digitsToNatAux 0 [] = n
    rw [digitsToNatAux_nil]
    simp

/-- Width of the decimal representation of a bounded number. -/
theorem natRepr_length_le (k n : Nat) (hk : 0 < k) (h : n < 10 ^ k) :
    (natRepr n).length ≤ k := by
  unfold natRepr
  split
  · simpa using hk
  · simpa using natToDigitsAux_length_le n k n [] h

/-- Digit characters are not spaces. -/
theorem ne_space_of_isDigit (c : Char) (h : c.isDigit = true) : c ≠ ' ' := by
  intro hcontra
  subst hcontra
  simp [Char.isDigit] at h

/-- Decimal formatting contains no space. -/
theorem natRepr_no_space (n : Nat) : ∀ c ∈ natRepr n, c ≠ ' ' := fun c hc =>
  ne_space_of_isDigit c (natRepr_all_digits n c hc)

end NumeralLemmas

section PaddingLemmas

/-- Width of a padded string whose content fits the width. -/
theorem padLeft_length_of_le (w : Nat) (s : List Char) (h : s.length ≤ w) :
    (padLeft w s).length = w := by
  simp [padLeft]
  omega

/-- Leading spaces coming from padding are removed by dropWhile. -/
theorem dropWhile_replicate_space_append (n : Nat) (l : List Char) :
    List.dropWhile (fun c => c == ' ') (List.replicate n ' ' ++ l) =
      List.dropWhile (fun c => c == ' ') l := by
  induction n with
  | zero => simp
  | succ n ih =>
    rw [List.replicate_succ, List.cons_append, List.dropWhile_cons]
    simp only [beq_self_eq_true, if_true]
    exact ih

/-- dropWhile for spaces keeps a string without spaces whole. -/
theorem dropWhile_space_eq_self (l : List Char) (h : ∀ c ∈ l, c ≠ ' ') :
    List.dropWhile (fun c => c == ' ') l = l := by
  cases l with
  | nil => rfl
  | cons a t =>
    have ha : (a == ' ') = false := beq_eq_false_iff_ne.mpr (h a (by simp))
    simp [List.dropWhile_cons, ha]

/-- Trimming a string without spaces is the identity. -/
theorem trimSpaces_eq_self (l : List Char) (h : ∀ c ∈ l, c ≠ ' ') :
    trimSpaces l = l := by
  unfold trimSpaces
  rw [dropWhile_space_eq_self l h,
    dropWhile_space_eq_self l.reverse (fun c hc => h c (List.mem_reverse.mp hc)),
    List.reverse_reverse]

/-- Trimming recovers the content of a space-padded field whose content has
no space of its own. -/
theorem trimSpaces_padLeft (w : Nat) (s : List Char) (h : ∀ c ∈ s, c ≠ ' ') :
    trimSpaces (padLeft w s) = s := by
  unfold trimSpaces padLeft
  rw [dropWhile_replicate_space_append, dropWhile_space_eq_self s h,
    dropWhile_space_eq_self s.reverse (fun c hc => h c (List.mem_reverse.mp hc)),
    List.reverse_reverse]

/-- The modelled strconv.ParseUint recovers a formatted number that fits in
16 bits. -/
theorem parseUint16_natRepr (n : Nat) (h : n < 65536) :
    parseUint16 (natRepr n) = .ok n := by
  have h1 : (natRepr n).isEmpty = false := by
    cases hnr : natRepr n with
    | nil => exact absurd hnr (natRepr_ne_nil n)
    | cons a t => rfl
  have h2 : (natRepr n).all Char.isDigit = true :=
    List.all_eq_true.mpr (natRepr_all_digits n)
  rw [parseUint16, h1, h2]
  simp [digitsToNat_natRepr, h]

end PaddingLemmas

section FieldLemmas

/-- The three header fields and the payload of a formatted record, in the
associativity convenient for dissection. -/
theorem AsString_eq (e : QrElement) :
    AsString e =
      padLeft uintStringLength (natRepr e.Index) ++
      (padLeft uintStringLength (natRepr e.MaxIndex) ++
      (padLeft uintStringLength (natRepr e.PayloadLength) ++ e.Payload)) := by
  simp [AsString, List.append_assoc]

/-- Dissection of a fixed-width record: dropping and taking at the field
offsets recovers the three width-20 fields and the payload remainder. -/
theorem record_fields (f1 f2 f3 P : List Char)
    (h1 : f1.length = uintStringLength) (h2 : f2.length = uintStringLength)
    (h3 : f3.length = uintStringLength) :
    ((f1 ++ f2 ++ f3 ++ P).drop indexPos).take uintStringLength = f1 ∧
    ((f1 ++ f2 ++ f3 ++ P).drop maxIndexPos).take uintStringLength = f2 ∧
    ((f1 ++ f2 ++ f3 ++ P).drop payloadLengthPos).take uintStringLength = f3 ∧
    (f1 ++ f2 ++ f3 ++ P).drop payloadPos = P := by
  have h12 : (f1 ++ f2).length = payloadLengthPos := by
    rw [List.length_append, h1, h2]; rfl
  have h123 : (f1 ++ f2 ++ f3).length = payloadPos := by
    rw [List.length_append, h12, h3]; rfl
  refine ⟨?_, ?_, ?_, ?_⟩
  · show ((f1 ++ f2 ++ f3 ++ P).drop 0).take uintStringLength = f1
    rw [List.drop_zero, List.append_assoc (f1 ++ f2) f3 P,
      List.append_assoc f1 f2 (f3 ++ P), List.take_left' h1]
  · rw [List.append_assoc (f1 ++ f2) f3 P, List.append_assoc f1 f2 (f3 ++ P),
      List.drop_left' (h1.trans (by rfl)), List.take_left' h2]
  · rw [List.append_assoc (f1 ++ f2) f3 P, List.drop_left' h12, List.take_left' h3]
  · rw [List.drop_left' h123]

/-- Width of a formatted record with a payload stored at full width and
header values below the 20 digit capacity of the integer fields. -/
theorem AsString_length (e : QrElement) (hpay : e.Payload.length = qrDataSize)
    (h1 : e.Index < 10 ^ 20) (h2 : e.MaxIndex < 10 ^ 20) (h3 : e.PayloadLength < 10 ^ 20) :
    (AsString e).length = qrSize := by
  have l1 := padLeft_length_of_le uintStringLength (natRepr e.Index)
    (natRepr_length_le 20 _ (by norm_num) h1)
  have l2 := padLeft_length_of_le uintStringLength (natRepr e.MaxIndex)
    (natRepr_length_le 20 _ (by norm_num) h2)
  have l3 := padLeft_length_of_le uintStringLength (natRepr e.PayloadLength)
    (natRepr_length_le 20 _ (by norm_num) h3)
  simp only [AsString, List.length_append, l1, l2, l3, hpay]
  decide

end FieldLemmas

/-- C3: for every chunk whose stored Payload has been padded to the fixed
capacity qrDataSize = 1548 and whose Index, MaxIndex and PayloadLength each
fit in 20 decimal digits, AsString produces a text of exactly qrSize = 1608
characters. -/
theorem C3_record_width (e : QrElement) (hpay : e.Payload.length = qrDataSize)
    (h1 : e.Index < 10 ^ 20) (h2 : e.MaxIndex < 10 ^ 20) (h3 : e.PayloadLength < 10 ^ 20) :
    (AsString e).length = qrSize :=
  AsString_length e hpay h1 h2 h3

/-- Witness for C3 at the boundary payload of 1548 characters and all-zero
header values. -/
theorem C3_record_width_witness :
    (AsString ⟨0, 0, 0, List.replicate 1548 'a'⟩).length = qrSize :=
  C3_record_width ⟨0, 0, 0, List.replicate 1548 'a'⟩ (by rw [List.length_replicate]; rfl)
    (by norm_num) (by norm_num) (by norm_num)

/-- C4 counterexample: chunking the empty payload does not yield one chunk;
GetElements of the empty string returns zero elements. -/
theorem C4_counterexample :
    Except.map (fun es => es.Elements.length) (GetElements ([] : List Char)) ≠ .ok 1 := by
  decide

/-- C4 amended: GetElements of the empty payload returns an empty element
set, so a zero-byte file produces no chunk at all and no total index. -/
theorem C4_amended : GetElements ([] : List Char) = .ok ⟨[]⟩ := by
  decide

section SortLemmas

instance : IsTrans QrElement lessByIndex := ⟨fun _ _ _ => Nat.lt_trans⟩

instance : IsTrans QrElement leByIndex := ⟨fun _ _ _ => Nat.le_trans⟩

instance : IsTotal QrElement leByIndex := ⟨fun a b => Nat.le_total a.Index b.Index⟩

/-- Defining equation of validateElements on a nonempty list. -/
theorem validateElements_cons (e : QrElement) (rest : List QrElement) :
    validateElements (e :: rest) =
      if (e :: rest).length < e.MaxIndex then .error "Incomplete set extracted."
      else
        if hasAdjacentDup (List.insertionSort leByIndex (e :: rest)) then
          .error "Duplicate element detected."
        else .ok (List.insertionSort leByIndex (e :: rest)) := rfl

/-- The adjacent duplicate scan passes exactly on chains of strictly
increasing indices. -/
theorem hasAdjacentDup_eq_false_iff (l : List QrElement) :
    hasAdjacentDup l = false ↔ List.Chain' lessByIndex l := by
  induction l with
  | nil => simp [hasAdjacentDup]
  | cons a t ih =>
    cases t with
    | nil => simp [hasAdjacentDup]
    | cons b rest =>
      rw [hasAdjacentDup_cons2, List.chain'_cons]
      by_cases hab : a.Index < b.Index
      · simpa [hab, lessByIndex] using ih
      · simp [hab, lessByIndex]

/-- A list whose adjacent duplicate scan passes has pairwise distinct
indices. -/
theorem nodup_of_hasAdjacentDup_eq_false (l : List QrElement)
    (h : hasAdjacentDup l = false) : (l.map QrElement.Index).Nodup := by
  have hchain := (hasAdjacentDup_eq_false_iff l).mp h
  have hpair : List.Pairwise lessByIndex l := List.chain'_iff_pairwise.mp hchain
  show (l.map QrElement.Index).Pairwise (· ≠ ·)
  exact List.pairwise_map.mpr (hpair.imp fun h => Nat.ne_of_lt h)

end SortLemmas

/-- C1: the validation tail of FromPNGs accepts a collected set that holds a
single chunk whose MaxIndex announces a two chunk sequence, although index 1
out of the range [0, MaxIndex] is missing from the set: the size check of the
source compares the element count against MaxIndex instead of MaxIndex + 1,
so a set missing exactly one chunk is reassembled silently. -/
theorem C1_incomplete_set_bug :
    validateElements [⟨0, 1, 0, []⟩] = .ok [⟨0, 1, 0, []⟩] ∧
    1 ∉ ([⟨0, 1, 0, []⟩] : List QrElement).map QrElement.Index := by
  decide

/-- C7 counterexample: a collected set with two chunks of the same index can
fail validation with the incomplete set error instead of the duplicate
element error, because the size check runs before the duplicate scan. -/
theorem C7_counterexample :
    (([⟨0, 3, 0, []⟩, ⟨0, 3, 0, []⟩] : List QrElement).map QrElement.Index = [0, 0]) ∧
    validateElements [⟨0, 3, 0, []⟩, ⟨0, 3, 0, []⟩] ≠ .error "Duplicate element detected." ∧
    validateElements [⟨0, 3, 0, []⟩, ⟨0, 3, 0, []⟩] = .error "Incomplete set extracted." := by
  decide

/-- C7 amended: a collected set containing two chunks with the same Index
always fails validation, and it fails with the duplicate element error
whenever it passes the preceding size check, that is whenever MaxIndex of
the first collected chunk is at most the element count; after sorting, a
duplicated index always produces an adjacent non-increasing pair. -/
theorem C7_duplicate_rejection (e : QrElement) (rest : List QrElement)
    (hdup : ¬ ((e :: rest).map QrElement.Index).Nodup) :
    (∃ msg, validateElements (e :: rest) = .error msg) ∧
    (e.MaxIndex ≤ (e :: rest).length →
      validateElements (e :: rest) = .error "Duplicate element detected.") := by
  have hperm : (List.insertionSort leByIndex (e :: rest)).Perm (e :: rest) :=
    List.perm_insertionSort leByIndex (e :: rest)
  have hs_true : hasAdjacentDup (List.insertionSort leByIndex (e :: rest)) = true := by
    by_contra hfalse
    rw [Bool.not_eq_true] at hfalse
    have hnodup := nodup_of_hasAdjacentDup_eq_false _ hfalse
    exact hdup ((hperm.map QrElement.Index).nodup_iff.mp hnodup)
  constructor
  · by_cases hsize : (e :: rest).length < e.MaxIndex
    · exact ⟨"Incomplete set extracted.", by rw [validateElements_cons, if_pos hsize]⟩
    · exact ⟨"Duplicate element detected.",
        by rw [validateElements_cons, if_neg hsize, hs_true, if_pos rfl]⟩
  · intro hle
    have hsize : ¬ ((e :: rest).length < e.MaxIndex) := by omega
    rw [validateElements_cons, if_neg hsize, hs_true, if_pos rfl]

/-- Witness for C7 amended: two chunks of index 0 claiming a two chunk
sequence fail with the duplicate element error. -/
theorem C7_duplicate_rejection_witness :
    (∃ msg, validateElements [⟨0, 1, 0, []⟩, ⟨0, 1, 0, []⟩] = .error msg) ∧
    ((⟨0, 1, 0, []⟩ : QrElement).MaxIndex ≤
        ([⟨0, 1, 0, []⟩, ⟨0, 1, 0, []⟩] : List QrElement).length →
      validateElements [⟨0, 1, 0, []⟩, ⟨0, 1, 0, []⟩] = .error "Duplicate element detected.") :=
  C7_duplicate_rejection ⟨0, 1, 0, []⟩ [⟨0, 1, 0, []⟩] (by decide)

section ChunkingLemmas

/-- mapM over Except succeeds pointwise. -/
theorem mapM_ok_of_forall {α β : Type} (f : α → Except String β) (g : α → β) (l : List α)
    (h : ∀ a ∈ l, f a = .ok (g a)) : l.mapM f = .ok (l.map g) := by
  induction l with
  | nil => rfl
  | cons a t ih =>
    rw [List.mapM_cons, h a (List.mem_cons_self a t),
      ih fun x hx => h x (List.mem_cons_of_mem a hx)]
    rfl

/-- Both branches of the loop body of GetElements produce the same element:
the one holding the padded take-slice, with no error possible. -/
theorem buildElement_eq (p : List Char) (mc i : Nat) :
    buildElement p mc i =
      .ok ⟨i, mc - 1, (slice p i).length, padLeft qrDataSize (slice p i)⟩ := by
  have hsplit : (i + 1) * qrDataSize = i * qrDataSize + qrDataSize := by ring
  unfold buildElement slice GetElement
  by_cases hcase : (i + 1) * qrDataSize > p.length
  · rw [if_pos hcase]
    have hlen : (p.drop (i * qrDataSize)).length ≤ qrDataSize := by
      rw [List.length_drop]
      omega
    have htake : (p.drop (i * qrDataSize)).take qrDataSize = p.drop (i * qrDataSize) :=
      List.take_of_length_le hlen
    rw [if_neg (by omega), htake]
  · rw [if_neg hcase]
    have hlen : ((p.drop (i * qrDataSize)).take qrDataSize).length ≤ qrDataSize := by
      simp [List.length_take]
    rw [if_neg (by omega)]

/-- GetElements never fails and produces, for each loop index, the element
holding that slice of the payload, padded, with the shared MaxIndex. -/
theorem GetElements_eq (p : List Char) :
    GetElements p = .ok ⟨(List.range (chunkCount p.length)).map
      (fun i => ⟨i, chunkCount p.length - 1, (slice p i).length,
        padLeft qrDataSize (slice p i)⟩)⟩ := by
  unfold GetElements
  rw [mapM_ok_of_forall _
    (fun i => (⟨i, chunkCount p.length - 1, (slice p i).length,
      padLeft qrDataSize (slice p i)⟩ : QrElement)) _
    (fun i _ => buildElement_eq p (chunkCount p.length) i)]

end ChunkingLemmas

section SliceLemmas

/-- Length of one slice of the payload. -/
theorem slice_length (p : List Char) (i : Nat) :
    (slice p i).length = min qrDataSize (p.length - i * qrDataSize) := by
  simp [slice, List.length_take, List.length_drop]

/-- Shifting a slice by one chunk is slicing the dropped payload. -/
theorem slice_succ (p : List Char) (i : Nat) :
    slice p (i + 1) = slice (p.drop qrDataSize) i := by
  unfold slice
  rw [List.drop_drop]
  have h : qrDataSize + i * qrDataSize = (i + 1) * qrDataSize := by ring
  rw [h]

/-- The slices of the loop of GetElements concatenate back to the payload. -/
theorem flatten_slices :
    ∀ (mc : Nat) (p : List Char), p.length ≤ mc * qrDataSize →
      ((List.range mc).map (fun i => slice p i)).flatten = p := by
  intro mc
  induction mc with
  | zero =>
    intro p h
    have hp : p = [] := List.length_eq_zero.mp (by omega)
    subst hp
    rfl
  | succ mc ih =>
    intro p h
    rw [List.range_succ_eq_map, List.map_cons, List.map_map, List.flatten_cons]
    have hshift : ((List.range mc).map ((fun i => slice p i) ∘ Nat.succ)) =
        (List.range mc).map (fun i => slice (p.drop qrDataSize) i) := by
      refine List.map_congr_left ?_
      intro i _
      exact slice_succ p i
    have hlen : (p.drop qrDataSize).length ≤ mc * qrDataSize := by
      rw [List.length_drop]
      have hmul : (mc + 1) * qrDataSize = mc * qrDataSize + qrDataSize := by ring
      omega
    rw [hshift, ih (p.drop qrDataSize) hlen]
    show (p.drop 0).take qrDataSize ++ p.drop qrDataSize = p
    rw [List.drop_zero, List.take_append_drop]

/-- Element count of GetElements as the ceiling of the length over the
capacity. -/
theorem chunkCount_eq_ceil (L : Nat) :
    chunkCount L = (L + qrDataSize - 1) / qrDataSize := by
  unfold chunkCount
  have hC : qrDataSize = 1548 := rfl
  rw [hC]
  split <;> omega

/-- The payload is covered by chunkCount slices. -/
theorem length_le_chunkCount_mul (L : Nat) : L ≤ chunkCount L * qrDataSize := by
  unfold chunkCount
  have hC : qrDataSize = 1548 := rfl
  rw [hC]
  split <;> omega

end SliceLemmas

/-- C6 counterexample: for a one element set whose chunk has Index 7 and a
ten character payload (so the log slice of its task does not panic), the
only file name WritePNGs forms is the plain concatenation with the loop
position 0, not the spec path with a separator and the chunk index 7. -/
theorem C6_counterexample :
    writePNGsNames ⟨[⟨7, 7, 10, ['a', 'a', 'a', 'a', 'a', 'a', 'a', 'a', 'a', 'a']⟩]⟩
        ['d'] ['p'] = some [['d', 'p', '0', '.', 'p', 'n', 'g']] ∧
    writePNGsNames ⟨[⟨7, 7, 10, ['a', 'a', 'a', 'a', 'a', 'a', 'a', 'a', 'a', 'a']⟩]⟩
        ['d'] ['p'] ≠ some [['d', '/', 'p', '7', '.', 'p', 'n', 'g']] := by
  decide

/-- C6 amended: WritePNGs forms each file name by concatenating the output
directory, the file name marker, the decimal loop position and the extension
.png, with no path separator inserted.  For a set produced by GetElements
every stored payload is padded to the full 1548 characters, so the log slice
of line 233 never panics, every task forms its name, and the loop position
coincides with the Index stored in the chunk: the name is the directory, the
marker, the decimal chunk index and .png, directly concatenated. -/
theorem C6_artifact_names (p workPath prefixStr : List Char) (es : QrElements)
    (hp : GetElements p = .ok es) :
    writePNGsNames es workPath prefixStr =
      some (es.Elements.map (fun e =>
        workPath ++ prefixStr ++ natRepr e.Index ++ ('.' :: 'p' :: 'n' :: 'g' :: []))) := by
  rw [GetElements_eq p] at hp
  have hes := (Except.ok.inj hp).symm
  subst hes
  unfold writePNGsNames pngFileName
  rw [if_pos]
  · simp [List.map_map, Function.comp]
  · intro v hv
    obtain ⟨i, -, rfl⟩ := List.mem_map.mp hv
    show 10 ≤ (padLeft qrDataSize (slice p i)).length
    rw [padLeft_length_of_le qrDataSize (slice p i)
      (by rw [slice_length]; exact Nat.min_le_left _ _)]
    decide

/-- Witness for C6 amended at the one character payload. -/
theorem C6_artifact_names_witness :
    writePNGsNames ⟨[⟨0, 0, (slice ['a'] 0).length, padLeft qrDataSize (slice ['a'] 0)⟩]⟩
        ['d'] ['p'] =
      some (([⟨0, 0, (slice ['a'] 0).length, padLeft qrDataSize (slice ['a'] 0)⟩] :
          List QrElement).map (fun e =>
        ['d'] ++ ['p'] ++ natRepr e.Index ++ ('.' :: 'p' :: 'n' :: 'g' :: []))) :=
  C6_artifact_names ['a'] ['d'] ['p']
    ⟨[⟨0, 0, (slice ['a'] 0).length, padLeft qrDataSize (slice ['a'] 0)⟩]⟩
    (by rw [GetElements_eq]; rfl)

section StoreDataLemmas

/-- Bind on a successful Except value. -/
theorem except_bind_ok {ε α β : Type} (a : α) (f : α → Except ε β) :
    (Except.ok a >>= f) = f a := rfl

/-- Bind on a failed Except value. -/
theorem except_bind_error {ε α β : Type} (e : ε) (f : α → Except ε β) :
    ((Except.error e : Except ε α) >>= f) = .error e := rfl

/-- Pure for Except is the ok constructor. -/
theorem except_pure {ε α : Type} (a : α) : (pure a : Except ε α) = .ok a := rfl

/-- The store loop reads nothing but the payload sequence: the panic guard
inspects the payload length and the decode reads the payload itself. -/
theorem storeDataLoop_payload_only :
    ∀ (l1 l2 : List QrElement) (data : List Nat),
      l1.map QrElement.Payload = l2.map QrElement.Payload →
      storeDataLoop l1 data = storeDataLoop l2 data := by
  intro l1
  induction l1 with
  | nil =>
    intro l2 data h
    cases l2 with
    | nil => rfl
    | cons w u => simp at h
  | cons v t ih =>
    intro l2 data h
    cases l2 with
    | nil => simp at h
    | cons w u =>
      simp only [List.map_cons, List.cons.injEq] at h
      rw [storeDataLoop_cons, storeDataLoop_cons, h.1]
      by_cases h10 : w.Payload.length < 10
      · rw [if_pos h10, if_pos h10]
      · rw [if_neg h10, if_neg h10]
        cases hd : hexDecode w.Payload with
        | error e => rfl
        | ok buffer => exact ih u (data ++ buffer) h.2

/-- The store loop over a list whose payloads all survive the log slice and
decode successfully, followed by a failing element whose payload also
survives the log slice, stops at the failure with the bytes appended so
far. -/
theorem storeDataLoop_append_error :
    ∀ (pre : List QrElement) (bufs : List (List Nat)) (rest : List QrElement)
      (bad : QrElement) (data : List Nat) (msg : String),
      (∀ e ∈ pre, 10 ≤ e.Payload.length) →
      pre.mapM (fun e => hexDecode e.Payload) = .ok bufs →
      10 ≤ bad.Payload.length →
      hexDecode bad.Payload = .error msg →
      storeDataLoop (pre ++ bad :: rest) data = some (data ++ bufs.flatten, some msg) := by
  intro pre
  induction pre with
  | nil =>
    intro bufs rest bad data msg hpre10 hpre hbad10 hbad
    have hb : bufs = [] := by
      have h0 : (Except.ok [] : Except String (List (List Nat))) = .ok bufs := hpre
      exact (Except.ok.inj h0).symm
    subst hb
    rw [List.nil_append, storeDataLoop_cons, if_neg (by omega), hbad]
    simp
  | cons v t ih =>
    intro bufs rest bad data msg hpre10 hpre hbad10 hbad
    rw [List.mapM_cons] at hpre
    cases hv : hexDecode v.Payload with
    | error e =>
      rw [hv, except_bind_error] at hpre
      exact Except.noConfusion hpre
    | ok b0 =>
      rw [hv, except_bind_ok] at hpre
      cases ht : t.mapM (fun e => hexDecode e.Payload) with
      | error e =>
        rw [ht, except_bind_error] at hpre
        exact Except.noConfusion hpre
      | ok bufs' =>
        rw [ht, except_bind_ok, except_pure] at hpre
        have hb : bufs = b0 :: bufs' := (Except.ok.inj hpre).symm
        subst hb
        have hv10 : 10 ≤ v.Payload.length := hpre10 v (List.mem_cons_self v t)
        rw [List.cons_append, storeDataLoop_cons, if_neg (by omega), hv]
        show storeDataLoop (t ++ bad :: rest) (data ++ b0) =
          some (data ++ (b0 :: bufs').flatten, some msg)
        rw [ih bufs' rest bad (data ++ b0) msg
            (fun x hx => hpre10 x (List.mem_cons_of_mem v hx)) ht hbad10 hbad,
          List.flatten_cons, List.append_assoc]

end StoreDataLemmas

/-- C9: the outcome of StoreData, including the panic of its log slice,
depends only on the sequence of Payload fields, in element order: two
element sets that agree element-wise on Payload but differ arbitrarily in
PayloadLength, Index or MaxIndex act identically on any QrFile. -/
theorem C9_payload_only (es1 es2 : QrElements) (f : QrFile)
    (h : es1.Elements.map QrElement.Payload = es2.Elements.map QrElement.Payload) :
    StoreData es1 f = StoreData es2 f := by
  unfold StoreData
  rw [storeDataLoop_payload_only es1.Elements es2.Elements f.Data h]

/-- Witness for C9: two one element sets with equal ten character payloads
but different Index, MaxIndex and PayloadLength fields store the same
bytes. -/
theorem C9_payload_only_witness :
    StoreData ⟨[⟨0, 0, 10, ['4', '1', '4', '2', '4', '3', '4', '4', '4', '5']⟩]⟩ New =
      StoreData ⟨[⟨9, 8, 7, ['4', '1', '4', '2', '4', '3', '4', '4', '4', '5']⟩]⟩ New :=
  C9_payload_only ⟨[⟨0, 0, 10, ['4', '1', '4', '2', '4', '3', '4', '4', '4', '5']⟩]⟩
    ⟨[⟨9, 8, 7, ['4', '1', '4', '2', '4', '3', '4', '4', '4', '5']⟩]⟩ New (by decide)

/-- C10 counterexample: an element whose payload zz is not valid hex text,
but is shorter than 10 characters, makes StoreData panic in the log slice
v.Payload[0:10] before the hex decode runs: the method never returns, so no
partial Data and no error value are produced at all, refuting the claimed
behaviour for this failing set. -/
theorem C10_counterexample :
    (∃ msg, hexDecode (['z', 'z'] : List Char) = .error msg) ∧
    StoreData ⟨[⟨1, 1, 2, ['z', 'z']⟩]⟩ New = none := by
  constructor
  · exact ⟨"encoding/hex: invalid byte: z", by decide⟩
  · decide

/-- C10 amended: StoreData is not atomic on error, with the proviso that it
only reaches an error return when every payload up to and including the
offending one has at least 10 characters (a shorter payload crashes the log
slice v.Payload[0:10] first and the method never returns).  When the
elements before position k decode successfully and the element at position
k, with a payload of at least 10 characters, is not valid hex text, the
target QrFile Data is left equal to its previous contents extended by the
decoded bytes of the elements before k, not restored, and the returned
error is the hex decode message alone, which carries no chunk index. -/
theorem C10_non_atomic (pre rest : List QrElement) (bad : QrElement) (f : QrFile)
    (bufs : List (List Nat)) (msg : String)
    (hpre10 : ∀ e ∈ pre, 10 ≤ e.Payload.length)
    (hpre : pre.mapM (fun e => hexDecode e.Payload) = .ok bufs)
    (hbad10 : 10 ≤ bad.Payload.length)
    (hbad : hexDecode bad.Payload = .error msg) :
    StoreData ⟨pre ++ bad :: rest⟩ f = some (⟨f.Fname, f.Data ++ bufs.flatten⟩, some msg) := by
  unfold StoreData
  rw [storeDataLoop_append_error pre bufs rest bad f.Data msg hpre10 hpre hbad10 hbad]

/-- Witness for C10 amended: a valid ten character element followed by an
element with the ten character payload zzzzzzzzzz leaves the decoded first
payload in Data and reports the invalid byte without a chunk index. -/
theorem C10_non_atomic_witness :
    StoreData ⟨[⟨0, 1, 10, ['4', '1', '4', '2', '4', '3', '4', '4', '4', '5']⟩] ++
        ⟨1, 1, 10, ['z', 'z', 'z', 'z', 'z', 'z', 'z', 'z', 'z', 'z']⟩ :: []⟩ New =
      some (⟨New.Fname, New.Data ++ ([[65, 66, 67, 68, 69]] : List (List Nat)).flatten⟩,
        some "encoding/hex: invalid byte: z") :=
  C10_non_atomic [⟨0, 1, 10, ['4', '1', '4', '2', '4', '3', '4', '4', '4', '5']⟩] []
    ⟨1, 1, 10, ['z', 'z', 'z', 'z', 'z', 'z', 'z', 'z', 'z', 'z']⟩ New [[65, 66, 67, 68, 69]]
    "encoding/hex: invalid byte: z" (by decide) (by decide) (by decide) (by decide)

section ParseFieldLemmas

/-- Failure characterization of the modelled strconv.ParseUint: it fails
exactly when the input is empty, has a non-digit character, or encodes a
value of 16 bits or more. -/
theorem parseUint16_error_iff (s : List Char) :
    (∃ e, parseUint16 s = .error e) ↔
      ¬ (s ≠ [] ∧ (∀ c ∈ s, c.isDigit = true) ∧ digitsToNat s < 65536) := by
  unfold parseUint16
  by_cases h1 : s.isEmpty
  · have hs : s = [] := by
      cases s with
      | nil => rfl
      | cons a t => exact absurd h1 (by simp)
    subst hs
    simp
  · have hs : s ≠ [] := by
      intro hcontra
      subst hcontra
      exact h1 rfl
    rw [if_neg h1]
    by_cases h2 : s.all Char.isDigit
    · rw [if_pos h2]
      by_cases h3 : digitsToNat s < 65536
      · rw [if_pos h3]
        apply iff_of_false
        · rintro ⟨e, he⟩
          exact Except.noConfusion he
        · intro hcontra
          exact hcontra ⟨hs, List.all_eq_true.mp h2, h3⟩
      · rw [if_neg h3]
        apply iff_of_true ⟨_, rfl⟩
        rintro ⟨-, -, hv⟩
        exact h3 hv
    · rw [if_neg h2]
      apply iff_of_true ⟨_, rfl⟩
      rintro ⟨-, hdig, -⟩
      exact h2 (List.all_eq_true.mpr hdig)

/-- Success of the modelled strconv.ParseUint implies the field criteria. -/
theorem parseUint16_ok_implies (s : List Char) (v : Nat) (h : parseUint16 s = .ok v) :
    s ≠ [] ∧ (∀ c ∈ s, c.isDigit = true) ∧ digitsToNat s < 65536 := by
  by_contra hn
  obtain ⟨e, he⟩ := (parseUint16_error_iff s).mpr hn
  rw [h] at he
  exact Except.noConfusion he

end ParseFieldLemmas

/-- Width of the concrete rejected record. -/
theorem c8Str_length : c8Str.length = qrSize := by
  have h1 := padLeft_length_of_le uintStringLength (natRepr 70000)
    (natRepr_length_le 20 70000 (by norm_num) (by norm_num))
  have h2 := padLeft_length_of_le uintStringLength (natRepr 1)
    (natRepr_length_le 20 1 (by norm_num) (by norm_num))
  have h3 := padLeft_length_of_le uintStringLength (natRepr 0)
    (natRepr_length_le 20 0 (by norm_num) (by norm_num))
  show (padLeft uintStringLength (natRepr 70000) ++ padLeft uintStringLength (natRepr 1) ++
    padLeft uintStringLength (natRepr 0) ++ List.replicate 1548 'a').length = qrSize
  simp only [List.length_append, h1, h2, h3, List.length_replicate]
  decide

/-- The header fields of the concrete rejected record, trimmed. -/
theorem c8Str_fields :
    trimSpaces ((c8Str.drop indexPos).take uintStringLength) = natRepr 70000 ∧
    trimSpaces ((c8Str.drop maxIndexPos).take uintStringLength) = natRepr 1 ∧
    trimSpaces ((c8Str.drop payloadLengthPos).take uintStringLength) = natRepr 0 := by
  have h1 := padLeft_length_of_le uintStringLength (natRepr 70000)
    (natRepr_length_le 20 70000 (by norm_num) (by norm_num))
  have h2 := padLeft_length_of_le uintStringLength (natRepr 1)
    (natRepr_length_le 20 1 (by norm_num) (by norm_num))
  have h3 := padLeft_length_of_le uintStringLength (natRepr 0)
    (natRepr_length_le 20 0 (by norm_num) (by norm_num))
  obtain ⟨hfa, hfb, hfc, -⟩ := record_fields (padLeft uintStringLength (natRepr 70000))
    (padLeft uintStringLength (natRepr 1)) (padLeft uintStringLength (natRepr 0))
    (List.replicate 1548 'a') h1 h2 h3
  refine ⟨?_, ?_, ?_⟩
  · show trimSpaces (((padLeft uintStringLength (natRepr 70000) ++
      padLeft uintStringLength (natRepr 1) ++ padLeft uintStringLength (natRepr 0) ++
      List.replicate 1548 'a').drop indexPos).take uintStringLength) = _
    rw [hfa, trimSpaces_padLeft _ _ (natRepr_no_space 70000)]
  · show trimSpaces (((padLeft uintStringLength (natRepr 70000) ++
      padLeft uintStringLength (natRepr 1) ++ padLeft uintStringLength (natRepr 0) ++
      List.replicate 1548 'a').drop maxIndexPos).take uintStringLength) = _
    rw [hfb, trimSpaces_padLeft _ _ (natRepr_no_space 1)]
  · show trimSpaces (((padLeft uintStringLength (natRepr 70000) ++
      padLeft uintStringLength (natRepr 1) ++ padLeft uintStringLength (natRepr 0) ++
      List.replicate 1548 'a').drop payloadLengthPos).take uintStringLength) = _
    rw [hfc, trimSpaces_padLeft _ _ (natRepr_no_space 0)]

/-- The modelled strconv.ParseUint rejects 70000 with a range error although
its text is a well-formed decimal number. -/
theorem parseUint16_70000 :
    parseUint16 (natRepr 70000) = .error "strconv.ParseUint: parsing: value out of range" := by
  have hne : (natRepr 70000).isEmpty = false := by
    cases hnr : natRepr 70000 with
    | nil => exact absurd hnr (natRepr_ne_nil _)
    | cons a t => rfl
  have hall : (natRepr 70000).all Char.isDigit = true :=
    List.all_eq_true.mpr (natRepr_all_digits _)
  rw [parseUint16, hne, hall, digitsToNat_natRepr]
  rw [if_neg (by simp), if_pos rfl, if_neg (by norm_num)]

/-- C8 counterexample: a record of the correct width whose three header
fields all hold well-formed non-negative decimal numbers (the index field
holds 70000) is still rejected by ParseString, because strconv.ParseUint is
called with bit size 16 and 70000 exceeds 65535; so decode failure is not
equivalent to a field failing to parse as a non-negative decimal integer. -/
theorem C8_counterexample :
    c8Str.length = qrSize ∧
    ((trimSpaces ((c8Str.drop indexPos).take uintStringLength) ≠ [] ∧
      (trimSpaces ((c8Str.drop indexPos).take uintStringLength)).all Char.isDigit = true) ∧
     (trimSpaces ((c8Str.drop maxIndexPos).take uintStringLength) ≠ [] ∧
      (trimSpaces ((c8Str.drop maxIndexPos).take uintStringLength)).all Char.isDigit = true) ∧
     (trimSpaces ((c8Str.drop payloadLengthPos).take uintStringLength) ≠ [] ∧
      (trimSpaces ((c8Str.drop payloadLengthPos).take uintStringLength)).all Char.isDigit = true)) ∧
    ParseString c8Str = .error "strconv.ParseUint: parsing: value out of range" := by
  obtain ⟨hf1, hf2, hf3⟩ := c8Str_fields
  refine ⟨c8Str_length, ⟨⟨?_, ?_⟩, ⟨?_, ?_⟩, ?_, ?_⟩, ?_⟩
  · rw [hf1]; exact natRepr_ne_nil 70000
  · rw [hf1]; exact List.all_eq_true.mpr (natRepr_all_digits 70000)
  · rw [hf2]; exact natRepr_ne_nil 1
  · rw [hf2]; exact List.all_eq_true.mpr (natRepr_all_digits 1)
  · rw [hf3]; exact natRepr_ne_nil 0
  · rw [hf3]; exact List.all_eq_true.mpr (natRepr_all_digits 0)
  · rw [ParseString, if_neg (by rw [c8Str_length]; omega), hf1, parseUint16_70000,
      except_bind_error]

/-- C8 amended: for an input of the correct fixed width qrSize, ParseString
fails if and only if some 20 character header field, after trimming space
padding, is not a nonempty string of decimal digits whose value fits in 16
bits; the effective numeric bound is the bit size 16 given to ParseUint, not
the 20 character field width, so the supported maximum is 65536 chunks and
in-field values from 65536 to 10^20 - 1 are rejected although their decimal
text would round-trip through the field. -/
theorem C8_parse_failure_iff (str : List Char) (h : str.length = qrSize) :
    (∃ e, ParseString str = .error e) ↔
      ¬ (decimalFieldOk ((str.drop indexPos).take uintStringLength) ∧
         decimalFieldOk ((str.drop maxIndexPos).take uintStringLength) ∧
         decimalFieldOk ((str.drop payloadLengthPos).take uintStringLength)) := by
  unfold ParseString
  rw [if_neg (by omega)]
  simp only [decimalFieldOk]
  cases hp1 : parseUint16 (trimSpaces ((str.drop indexPos).take uintStringLength)) with
  | error e1 =>
    rw [except_bind_error]
    apply iff_of_true ⟨e1, rfl⟩
    rintro ⟨hA, -, -⟩
    exact (parseUint16_error_iff _).mp ⟨e1, hp1⟩ hA
  | ok v1 =>
    rw [except_bind_ok]
    have hA := parseUint16_ok_implies _ _ hp1
    cases hp2 : parseUint16 (trimSpaces ((str.drop maxIndexPos).take uintStringLength)) with
    | error e2 =>
      rw [except_bind_error]
      apply iff_of_true ⟨e2, rfl⟩
      rintro ⟨-, hB, -⟩
      exact (parseUint16_error_iff _).mp ⟨e2, hp2⟩ hB
    | ok v2 =>
      rw [except_bind_ok]
      have hB := parseUint16_ok_implies _ _ hp2
      cases hp3 :
          parseUint16 (trimSpaces ((str.drop payloadLengthPos).take uintStringLength)) with
      | error e3 =>
        rw [except_bind_error]
        apply iff_of_true ⟨e3, rfl⟩
        rintro ⟨-, -, hC⟩
        exact (parseUint16_error_iff _).mp ⟨e3, hp3⟩ hC
      | ok v3 =>
        rw [except_bind_ok]
        apply iff_of_false
        · rintro ⟨e, he⟩
          exact Except.noConfusion he
        · intro hcontra
          exact hcontra ⟨hA, hB, parseUint16_ok_implies _ _ hp3⟩

/-- Witness for C8 amended at the concrete rejected record. -/
theorem C8_parse_failure_iff_witness :
    (∃ e, ParseString c8Str = .error e) ↔
      ¬ (decimalFieldOk ((c8Str.drop indexPos).take uintStringLength) ∧
         decimalFieldOk ((c8Str.drop maxIndexPos).take uintStringLength) ∧
         decimalFieldOk ((c8Str.drop payloadLengthPos).take uintStringLength)) :=
  C8_parse_failure_iff c8Str c8Str_length


/-- C5: for every non-empty payload, GetElements succeeds and returns, for
each loop index i below the chunk count, the element with Index i, the
shared MaxIndex chunkCount - 1, PayloadLength equal to the slice length and
the space-padded slice as Payload; the chunk count is the ceiling of the
length over the capacity qrDataSize and is at least one; every slice except
the last has the full capacity; the last slice has length L mod capacity, or
the full capacity when the capacity divides L; and the slices concatenate
back to the payload. -/
theorem C5_chunking (p : List Char) (hne : p ≠ []) :
    GetElements p = .ok ⟨(List.range (chunkCount p.length)).map
      (fun i => ⟨i, chunkCount p.length - 1, (slice p i).length,
        padLeft qrDataSize (slice p i)⟩)⟩ ∧
    chunkCount p.length = (p.length + qrDataSize - 1) / qrDataSize ∧
    1 ≤ chunkCount p.length ∧
    (∀ i, i + 1 < chunkCount p.length → (slice p i).length = qrDataSize) ∧
    (slice p (chunkCount p.length - 1)).length =
      (if p.length % qrDataSize = 0 then qrDataSize else p.length % qrDataSize) ∧
    ((List.range (chunkCount p.length)).map (fun i => slice p i)).flatten = p := by
  have hC : qrDataSize = 1548 := rfl
  have hL : 0 < p.length := List.length_pos.mpr hne
  have hcc : chunkCount p.length = p.length / 1548 + if p.length % 1548 ≠ 0 then 1 else 0 := by
    unfold chunkCount
    rw [hC]
  refine ⟨GetElements_eq p, chunkCount_eq_ceil p.length, ?_, ?_, ?_, ?_⟩
  · rw [hcc]
    split <;> omega
  · intro i hi
    rw [hcc] at hi
    rw [slice_length, hC]
    show 1548 ⊓ (p.length - i * 1548) = 1548
    by_cases hm : p.length % 1548 = 0 <;>
      simp only [hm, if_pos, if_neg, ne_eq, not_true_eq_false, not_false_eq_true,
        if_true, if_false] at hi <;>
      rw [Nat.min_def] <;> split <;> omega
  · rw [slice_length, hcc]
    simp only [hC]
    by_cases hm : p.length % 1548 = 0
    · have h1 : (if p.length % 1548 ≠ 0 then 1 else 0) = 0 := by simp [hm]
      have h2 : (if p.length % 1548 = 0 then (1548 : Nat) else p.length % 1548) = 1548 := by
        simp [hm]
      rw [h1, h2, Nat.min_def]
      split <;> omega
    · have h1 : (if p.length % 1548 ≠ 0 then 1 else 0) = 1 := by simp [hm]
      have h2 : (if p.length % 1548 = 0 then (1548 : Nat) else p.length % 1548) =
          p.length % 1548 := by simp [hm]
      rw [h1, h2, Nat.min_def]
      split <;> omega
  · exact flatten_slices (chunkCount p.length) p (length_le_chunkCount_mul p.length)

/-- Witness for C5 at the two character payload. -/
theorem C5_chunking_witness :
    GetElements ['a', 'b'] = .ok ⟨(List.range (chunkCount (['a', 'b'] : List Char).length)).map
      (fun i => ⟨i, chunkCount (['a', 'b'] : List Char).length - 1,
        (slice ['a', 'b'] i).length, padLeft qrDataSize (slice ['a', 'b'] i)⟩)⟩ ∧
    chunkCount (['a', 'b'] : List Char).length =
      ((['a', 'b'] : List Char).length + qrDataSize - 1) / qrDataSize ∧
    1 ≤ chunkCount (['a', 'b'] : List Char).length ∧
    (∀ i, i + 1 < chunkCount (['a', 'b'] : List Char).length →
      (slice ['a', 'b'] i).length = qrDataSize) ∧
    (slice ['a', 'b'] (chunkCount (['a', 'b'] : List Char).length - 1)).length =
      (if (['a', 'b'] : List Char).length % qrDataSize = 0 then qrDataSize
       else (['a', 'b'] : List Char).length % qrDataSize) ∧
    ((List.range (chunkCount (['a', 'b'] : List Char).length)).map
      (fun i => slice ['a', 'b'] i)).flatten = ['a', 'b'] :=
  C5_chunking ['a', 'b'] (by simp)

section HexLemmas

/-- Length of the hex encoding: two characters per byte. -/
theorem hexEncode_length (b : List Nat) : (hexEncode b).length = 2 * b.length := by
  induction b with
  | nil => rfl
  | cons x t ih =>
    rw [hexEncode_cons]
    simp only [List.length_cons, ih]
    omega

/-- The hex alphabet round trips through the decoder table. -/
theorem fromHexChar_hexDigitChar : ∀ n, n < 16 → fromHexChar (hexDigitChar n) = some n := by
  decide

/-- The hex alphabet contains no space. -/
theorem hexDigitChar_ne_space : ∀ n, n < 16 → hexDigitChar n ≠ ' ' := by
  decide

/-- Characters of an encoded byte buffer are never spaces. -/
theorem hexEncode_no_space (b : List Nat) (hb : ∀ x ∈ b, x < 256) :
    ∀ c ∈ hexEncode b, c ≠ ' ' := by
  induction b with
  | nil => intro c hc; simp [hexEncode_nil] at hc
  | cons x t ih =>
    intro c hc
    rw [hexEncode_cons] at hc
    have hx : x < 256 := hb x (List.mem_cons_self x t)
    rcases List.mem_cons.mp hc with hc | hc
    · exact hc ▸ hexDigitChar_ne_space (x / 16)
        ((Nat.div_lt_iff_lt_mul (by norm_num)).mpr (by omega))
    rcases List.mem_cons.mp hc with hc | hc
    · exact hc ▸ hexDigitChar_ne_space (x % 16) (Nat.mod_lt x (by norm_num))
    · exact ih (fun y hy => hb y (List.mem_cons_of_mem x hy)) c hc

/-- Decoding an encoded byte buffer gives the buffer back. -/
theorem hexDecode_hexEncode (b : List Nat) (hb : ∀ x ∈ b, x < 256) :
    hexDecode (hexEncode b) = .ok b := by
  induction b with
  | nil => rfl
  | cons x t ih =>
    have hx : x < 256 := hb x (List.mem_cons_self x t)
    have hdiv : x / 16 < 16 := (Nat.div_lt_iff_lt_mul (by norm_num)).mpr (by omega)
    rw [hexEncode_cons, hexDecode_cons2,
      fromHexChar_hexDigitChar (x / 16) hdiv,
      fromHexChar_hexDigitChar (x % 16) (Nat.mod_lt x (by norm_num)),
      ih (fun y hy => hb y (List.mem_cons_of_mem x hy))]
    show Except.ok ((16 * (x / 16) + x % 16) :: t) = Except.ok (x :: t)
    rw [Nat.div_add_mod x 16]

/-- Decoding splits over concatenation at an even boundary. -/
theorem hexDecode_append :
    ∀ (s t : List Char), s.length % 2 = 0 →
      hexDecode (s ++ t) =
        (hexDecode s).bind (fun xs => (hexDecode t).map (fun ys => xs ++ ys))
  | [], t, _ => by
    rw [List.nil_append, hexDecode_nil]
    cases hexDecode t <;> simp [Except.bind, Except.map]
  | [_], _, h => by simp at h
  | a :: b :: s, t, h => by
    have hs : s.length % 2 = 0 := by
      simp only [List.length_cons] at h
      omega
    rw [List.cons_append, List.cons_append, hexDecode_cons2 a b (s ++ t),
      hexDecode_cons2 a b s]
    cases hfa : fromHexChar a with
    | none => simp [Except.bind]
    | some x =>
      cases hfb : fromHexChar b with
      | none => simp [Except.bind]
      | some y =>
        rw [hexDecode_append s t hs]
        cases hds : hexDecode s with
        | error e => simp [Except.bind]
        | ok xs =>
          cases hdt : hexDecode t with
          | error e => simp [Except.bind, Except.map]
          | ok ys => simp [Except.bind, Except.map]

end HexLemmas

section PipelineLemmas

/-- mapM over a mapped list, all succeeding pointwise. -/
theorem mapM_map_ok {α β γ : Type} (F : β → Except String γ) (f : α → β) (g : α → γ)
    (l : List α) (h : ∀ a ∈ l, F (f a) = .ok (g a)) :
    (l.map f).mapM F = .ok (l.map g) := by
  induction l with
  | nil => rfl
  | cons a t ih =>
    rw [List.map_cons, List.mapM_cons, h a (List.mem_cons_self a t),
      ih fun x hx => h x (List.mem_cons_of_mem a hx)]
    rfl

/-- ParseString inverts AsString on every element whose stored payload is the
padding of a space-free text fitting the capacity and whose header values
fit the 16-bit parse bound. -/
theorem ParseString_AsString (e : QrElement) (s : List Char)
    (hpay : e.Payload = padLeft qrDataSize s)
    (hslen : s.length ≤ qrDataSize)
    (hsp : ∀ c ∈ s, c ≠ ' ')
    (h1 : e.Index < 65536) (h2 : e.MaxIndex < 65536) (h3 : e.PayloadLength < 65536) :
    ParseString (AsString e) = .ok ⟨e.Index, e.MaxIndex, e.PayloadLength, s⟩ := by
  have hb1 : e.Index < 10 ^ 20 := lt_trans h1 (by norm_num)
  have hb2 : e.MaxIndex < 10 ^ 20 := lt_trans h2 (by norm_num)
  have hb3 : e.PayloadLength < 10 ^ 20 := lt_trans h3 (by norm_num)
  have l1 := padLeft_length_of_le uintStringLength (natRepr e.Index)
    (natRepr_length_le 20 _ (by norm_num) hb1)
  have l2 := padLeft_length_of_le uintStringLength (natRepr e.MaxIndex)
    (natRepr_length_le 20 _ (by norm_num) hb2)
  have l3 := padLeft_length_of_le uintStringLength (natRepr e.PayloadLength)
    (natRepr_length_le 20 _ (by norm_num) hb3)
  have hplen : e.Payload.length = qrDataSize := by
    rw [hpay]
    exact padLeft_length_of_le qrDataSize s hslen
  have hlen : (AsString e).length = qrSize := AsString_length e hplen hb1 hb2 hb3
  obtain ⟨hfa, hfb, hfc, hfd⟩ := record_fields
    (padLeft uintStringLength (natRepr e.Index))
    (padLeft uintStringLength (natRepr e.MaxIndex))
    (padLeft uintStringLength (natRepr e.PayloadLength))
    e.Payload l1 l2 l3
  have hA : AsString e =
      padLeft uintStringLength (natRepr e.Index) ++
      padLeft uintStringLength (natRepr e.MaxIndex) ++
      padLeft uintStringLength (natRepr e.PayloadLength) ++ e.Payload := rfl
  rw [ParseString, if_neg (by rw [hlen]; omega), hA, hfa, hfb, hfc, hfd,
    trimSpaces_padLeft _ _ (natRepr_no_space e.Index),
    trimSpaces_padLeft _ _ (natRepr_no_space e.MaxIndex),
    trimSpaces_padLeft _ _ (natRepr_no_space e.PayloadLength),
    parseUint16_natRepr _ h1, except_bind_ok,
    parseUint16_natRepr _ h2, except_bind_ok,
    parseUint16_natRepr _ h3, except_bind_ok,
    hpay, trimSpaces_padLeft _ _ hsp]

/-- Validation succeeds and is the identity on a nonempty list whose indices
strictly increase and whose first MaxIndex fits the length check. -/
theorem validateElements_ok (e : QrElement) (rest : List QrElement)
    (hsize : ¬ ((e :: rest).length < e.MaxIndex))
    (hsorted : List.Pairwise lessByIndex (e :: rest)) :
    validateElements (e :: rest) = .ok (e :: rest) := by
  rw [validateElements_cons, if_neg hsize]
  have hsort_eq : List.insertionSort leByIndex (e :: rest) = e :: rest :=
    List.Sorted.insertionSort_eq (hsorted.imp fun h => le_of_lt h)
  rw [hsort_eq, (hasAdjacentDup_eq_false_iff _).mpr (List.Pairwise.chain' hsorted)]
  rfl

/-- The store loop succeeds on elements whose payloads all survive the log
slice (at least 10 characters), have even length and concatenate to a
decodable hex string, and appends exactly the decoded bytes. -/
theorem storeDataLoop_ok_of_flatten :
    ∀ (elems : List QrElement) (data B : List Nat),
      (∀ e ∈ elems, 10 ≤ e.Payload.length) →
      (∀ e ∈ elems, e.Payload.length % 2 = 0) →
      hexDecode ((elems.map QrElement.Payload).flatten) = .ok B →
      storeDataLoop elems data = some (data ++ B, none) := by
  intro elems
  induction elems with
  | nil =>
    intro data B h10 heven hdec
    have hB : B = [] := by
      rw [List.map_nil, List.flatten_nil, hexDecode_nil] at hdec
      exact (Except.ok.inj hdec).symm
    subst hB
    rw [storeDataLoop_nil, List.append_nil]
  | cons v t ih =>
    intro data B h10 heven hdec
    rw [List.map_cons, List.flatten_cons,
      hexDecode_append v.Payload ((t.map QrElement.Payload).flatten)
        (heven v (List.mem_cons_self v t))] at hdec
    cases hv : hexDecode v.Payload with
    | error e => rw [hv] at hdec; exact Except.noConfusion hdec
    | ok xs =>
      rw [hv] at hdec
      cases ht : hexDecode ((t.map QrElement.Payload).flatten) with
      | error e =>
        rw [ht] at hdec
        exact Except.noConfusion hdec
      | ok ys =>
        rw [ht] at hdec
        have hB : B = xs ++ ys := (Except.ok.inj hdec).symm
        subst hB
        have hv10 : 10 ≤ v.Payload.length := h10 v (List.mem_cons_self v t)
        rw [storeDataLoop_cons, if_neg (by omega), hv]
        show storeDataLoop t (data ++ xs) = some (data ++ (xs ++ ys), none)
        rw [ih (data ++ xs) ys (fun x hx => h10 x (List.mem_cons_of_mem v hx))
            (fun x hx => heven x (List.mem_cons_of_mem v hx)) ht,
          List.append_assoc]

end PipelineLemmas


/-- Validation succeeds and is the identity on the image of the range map
whose elements carry their own position as Index. -/
theorem validateElements_ok_range (mc : Nat) (hmc : 1 ≤ mc) (h : Nat → QrElement)
    (hidx : ∀ i, (h i).Index = i) (hmax : (h 0).MaxIndex ≤ mc) :
    validateElements ((List.range mc).map h) = .ok ((List.range mc).map h) := by
  have hpair : List.Pairwise lessByIndex ((List.range mc).map h) := by
    refine List.pairwise_map.mpr ?_
    refine (List.pairwise_lt_range mc).imp ?_
    intro i j hij
    show (h i).Index < (h j).Index
    rw [hidx i, hidx j]
    exact hij
  obtain ⟨mc2, rfl⟩ : ∃ mc2, mc = mc2 + 1 := ⟨mc - 1, by omega⟩
  rw [List.range_succ_eq_map, List.map_cons] at hpair ⊢
  refine validateElements_ok (h 0) _ ?_ hpair
  simp only [List.length_cons, List.length_map, List.length_range]
  omega

/-- C2 amended: for every non-empty byte buffer whose values are bytes,
whose length keeps the chunk count within the 16-bit parse bound (at most
50724864 bytes, that is 65536 chunks), and whose last chunk carries at
least 5 bytes or exactly the full capacity (length mod 774 is zero or at
least 5, so that the trimmed final payload has at least the 10 characters
the StoreData log slice reads), the full round trip through hex encoding,
GetElements, AsString, ParseString, the FromPNGs validation and StoreData
returns and reproduces the buffer byte for byte. -/
theorem C2_round_trip (b : List Nat) (hne : b ≠ []) (hbytes : ∀ x ∈ b, x < 256)
    (hlen : b.length ≤ 50724864)
    (hlast : b.length % 774 = 0 ∨ 5 ≤ b.length % 774) :
    roundTrip b = some (.ok b) := by
  have hC : qrDataSize = 1548 := rfl
  have hqlen : (hexEncode b).length = 2 * b.length := hexEncode_length b
  have hbpos : 0 < b.length := List.length_pos.mpr hne
  have hcc : chunkCount (hexEncode b).length =
      (hexEncode b).length / 1548 + if (hexEncode b).length % 1548 ≠ 0 then 1 else 0 := by
    unfold chunkCount
    rw [hC]
  have hmc1 : 1 ≤ chunkCount (hexEncode b).length := by
    rw [hcc]
    split <;> omega
  have hmc : chunkCount (hexEncode b).length ≤ 65536 := by
    rw [hcc]
    split <;> omega
  have h1 := GetElements_eq (hexEncode b)
  have hparse : ((((List.range (chunkCount (hexEncode b).length)).map
      (fun i => (⟨i, chunkCount (hexEncode b).length - 1, (slice (hexEncode b) i).length,
        padLeft qrDataSize (slice (hexEncode b) i)⟩ : QrElement))).map AsString).mapM ParseString) =
      .ok ((List.range (chunkCount (hexEncode b).length)).map
        (fun i => (⟨i, chunkCount (hexEncode b).length - 1, (slice (hexEncode b) i).length,
          slice (hexEncode b) i⟩ : QrElement))) := by
    rw [List.map_map]
    refine mapM_map_ok ParseString _ _ _ ?_
    intro i hi
    have hilt : i < chunkCount (hexEncode b).length := List.mem_range.mp hi
    refine ParseString_AsString _ (slice (hexEncode b) i) rfl ?_ ?_ ?_ ?_ ?_
    · rw [slice_length]
      exact Nat.min_le_left _ _
    · intro c hc
      exact hexEncode_no_space b hbytes c
        (List.drop_subset _ _ (List.take_subset _ _ hc))
    · show i < 65536
      omega
    · show chunkCount (hexEncode b).length - 1 < 65536
      omega
    · show (slice (hexEncode b) i).length < 65536
      have := Nat.min_le_left qrDataSize ((hexEncode b).length - i * qrDataSize)
      rw [slice_length]
      rw [hC] at this ⊢
      omega
  have hval := validateElements_ok_range (chunkCount (hexEncode b).length) hmc1
    (fun i => (⟨i, chunkCount (hexEncode b).length - 1, (slice (hexEncode b) i).length,
      slice (hexEncode b) i⟩ : QrElement)) (fun i => rfl) (by show chunkCount _ - 1 ≤ _; omega)
  have hflat : ((((List.range (chunkCount (hexEncode b).length)).map
      (fun i => (⟨i, chunkCount (hexEncode b).length - 1, (slice (hexEncode b) i).length,
        slice (hexEncode b) i⟩ : QrElement))).map QrElement.Payload).flatten) = hexEncode b := by
    rw [List.map_map]
    exact flatten_slices _ _ (length_le_chunkCount_mul _)
  have h10 : ∀ i, i < chunkCount (hexEncode b).length →
      10 ≤ (slice (hexEncode b) i).length := by
    intro i hilt
    have h2 : (hexEncode b).length % 1548 = 0 ∨ 10 ≤ (hexEncode b).length % 1548 := by
      omega
    rw [hcc] at hilt
    rw [slice_length, hC, Nat.min_def]
    by_cases hm : (hexEncode b).length % 1548 = 0 <;>
      simp only [hm, ne_eq, not_true_eq_false, not_false_eq_true,
        if_true, if_false] at hilt <;>
      split <;> omega
  have hstore : storeDataLoop ((List.range (chunkCount (hexEncode b).length)).map
      (fun i => (⟨i, chunkCount (hexEncode b).length - 1, (slice (hexEncode b) i).length,
        slice (hexEncode b) i⟩ : QrElement))) [] = some ([] ++ b, none) := by
    refine storeDataLoop_ok_of_flatten _ [] b ?_ ?_ ?_
    · intro e he
      obtain ⟨i, hi, rfl⟩ := List.mem_map.mp he
      exact h10 i (List.mem_range.mp hi)
    · intro e he
      obtain ⟨i, hi, rfl⟩ := List.mem_map.mp he
      show (slice (hexEncode b) i).length % 2 = 0
      rw [slice_length, hC, Nat.min_def]
      split <;> omega
    · rw [hflat]
      exact hexDecode_hexEncode b hbytes
  rw [List.nil_append] at hstore
  have hsd : StoreData ⟨(List.range (chunkCount (hexEncode b).length)).map
      (fun i => (⟨i, chunkCount (hexEncode b).length - 1, (slice (hexEncode b) i).length,
        slice (hexEncode b) i⟩ : QrElement))⟩ New = some (⟨[], b⟩, none) := by
    unfold StoreData
    show (match storeDataLoop ((List.range (chunkCount (hexEncode b).length)).map
        (fun i => (⟨i, chunkCount (hexEncode b).length - 1, (slice (hexEncode b) i).length,
          slice (hexEncode b) i⟩ : QrElement))) [] with
      | none => none
      | some (d, e) => some ((⟨[], d⟩ : QrFile), e)) =
      some ((⟨[], b⟩ : QrFile), none)
    rw [hstore]
  unfold roundTrip
  rw [h1, except_bind_ok]
  rw [hparse, except_bind_ok]
  rw [hval]
  show (match StoreData ⟨(List.range (chunkCount (hexEncode b).length)).map
      (fun i => (⟨i, chunkCount (hexEncode b).length - 1, (slice (hexEncode b) i).length,
        slice (hexEncode b) i⟩ : QrElement))⟩ New with
    | none => none
    | some (_, some e) => some (Except.error e)
    | some (f, none) => some (Except.ok f.Data)) = some (Except.ok b)
  rw [hsd]


/-- C2 counterexample: the empty buffer does not round trip; chunking yields
zero elements, so the validation stage fails with the no elements error
instead of reproducing the zero-byte file. -/
theorem C2_counterexample : roundTrip [] = some (.error "No elements extraced.") := by
  decide

/-- Witness for C2 amended at a five byte buffer, whose single chunk payload
has exactly the 10 characters the StoreData log slice requires. -/
theorem C2_round_trip_witness : roundTrip [65, 66, 67, 68, 69] = some (.ok [65, 66, 67, 68, 69]) :=
  C2_round_trip [65, 66, 67, 68, 69] (by simp) (by decide) (by simp) (by simp)

end QrFileModel
